import Mathlib

/-!
# Verification of the Strava→Discord polling bot (`claude-ai-bot.py`)

A shallow embedding of the bot's core state and operations:

* `BotState` models the two in-memory dicts `athlete_tokens` and
  `last_checked` (timestamps are modelled as `Int` epoch seconds; the
  Python code stores ISO strings and converts with `.timestamp()`).
* `set_token`, `remove_athlete`, `load_data`, `save_data` model the
  registration / removal commands and the persistence layer.
* `get_recent_activities` models the fetch: the remote's behaviour is an
  oracle `Resp` (HTTP status + body, or a network-level exception); the
  code returns the JSON body on status 200 and an empty list on any
  other status, and lets network exceptions propagate.
* `check_activities` models one scheduler cycle: iterate the athletes in
  dict order, fetch, post each activity (delivery may fail, modelled by
  an oracle), update `last_checked` to the cycle's wall-clock time on
  success, catch any exception per athlete, and call `save_data` once at
  the end.  Delivery and persistence are recorded in an `Event` trace.
-/

/-- Python dict lookup on an association list (first matching key). -/
def lookupk {α : Type} : List (String × α) → String → Option α
  | [], _ => none
  | p :: rest, k => if p.1 = k then some p.2 else lookupk rest k

/-- Python `k in d`. -/
def hask {α : Type} (m : List (String × α)) (k : String) : Bool :=
  (lookupk m k).isSome

/-- Python `d[k] = v`: replace the value in place if the key is present,
otherwise append (dict insertion order). -/
def setk {α : Type} : List (String × α) → String → α → List (String × α)
  | [], k, v => [(k, v)]
  | p :: rest, k, v => if p.1 = k then (k, v) :: rest else p :: setk rest k v

/-- Python `del d[k]`: remove the first entry with the key. -/
def delk {α : Type} : List (String × α) → String → List (String × α)
  | [], _ => []
  | p :: rest, k => if p.1 = k then rest else p :: delk rest k

/-- An activity record as returned by the Strava API.  Only the fields the
core logic touches are modelled; the rendering-only fields are opaque. -/
structure Activity where
  aid : Nat
  startTime : Int
  deriving DecidableEq, Repr

/-- The remote's behaviour for one fetch: an HTTP response with a status
and a JSON body, or a network-level failure (an exception raised by the
HTTP client inside `get_recent_activities`). -/
inductive Resp where
  | http (status : Nat) (body : List Activity)
  | netErr
  deriving DecidableEq, Repr

/-- The bot's in-memory state: the two dicts of `StravaBot.__init__`. -/
structure BotState where
  athlete_tokens : List (String × String)
  last_checked : List (String × Int)
  deriving DecidableEq, Repr

/-- `self.athlete_tokens = {}; self.last_checked = {}` in `__init__`. -/
def initState : BotState := ⟨[], []⟩

/-- The persisted record `bot_data.json`: both maps in one file. -/
structure FileData where
  athlete_tokens : List (String × String)
  last_checked : List (String × Int)
  deriving DecidableEq, Repr

/-- `save_data`: serialize both maps as a single record. -/
def save_data (st : BotState) : FileData :=
  ⟨st.athlete_tokens, st.last_checked⟩

/-- `load_data`: read the persisted record; on `FileNotFoundError`
(modelled by `none`) the exception is caught and the state is left as it
was (both maps stay as `__init__` set them). -/
def load_data (file : Option FileData) (st : BotState) : BotState :=
  match file with
  | some d => { athlete_tokens := d.athlete_tokens, last_checked := d.last_checked }
  | none => st

/-- `set_token <athlete_id> <access_token>`: store the credential and set
`last_checked[athlete_id]` to `datetime.now()` (the registration time),
then `save_data()`. -/
def set_token (st : BotState) (athlete_id access_token : String) (now : Int) : BotState :=
  { athlete_tokens := setk st.athlete_tokens athlete_id access_token,
    last_checked := setk st.last_checked athlete_id now }

/-- `remove_athlete <athlete_id>`: if the id has a token, delete it from
both dicts and `save_data()`; otherwise report not-found and change
nothing. -/
def remove_athlete (st : BotState) (athlete_id : String) : BotState :=
  if hask st.athlete_tokens athlete_id then
    { athlete_tokens := delk st.athlete_tokens athlete_id,
      last_checked := delk st.last_checked athlete_id }
  else st

/-- The `after` request parameter of `get_recent_activities`: the stored
`last_checked` timestamp if present, else `now - 24h` (86400 s). -/
def after_timestamp (st : BotState) (athlete_id : String) (now : Int) : Int :=
  match lookupk st.last_checked athlete_id with
  | some t => t
  | none => now - 86400

/-- `get_recent_activities`: compute the `after` window, issue the HTTP
request (`resp` is the remote's behaviour as a function of the requested
window), return the body on status 200 and `[]` on any other status
(after logging); a network failure is an uncaught exception
(`Except.error`). -/
def get_recent_activities (st : BotState) (athlete_id : String) (now : Int)
    (resp : Int → Resp) : Except Unit (List Activity) :=
  let after := after_timestamp st athlete_id now
  match resp after with
  | Resp.http status body => if status = 200 then Except.ok body else Except.ok []
  | Resp.netErr => Except.error ()

/-- The `for activity in activities: await self.post_activity(...)` loop:
`ok a` says whether posting `a` succeeds; the loop posts activities in
list order and stops at the first failure (the raised exception).
Returns the activities actually posted and whether the loop finished. -/
def deliverLoop (ok : Activity → Bool) : List Activity → List Activity × Bool
  | [] => ([], true)
  | a :: rest =>
    if ok a then
      let r := deliverLoop ok rest
      (a :: r.1, r.2)
    else ([], false)

/-- Observable actions of a cycle: an activity posted to the channel for
an athlete, or a `save_data()` call. -/
inductive Event where
  | delivered (athlete_id : String) (a : Activity)
  | persisted
  deriving DecidableEq, Repr

/-- The body of the per-athlete `try` block in `check_activities`, for one
athlete: fetch, post each activity, and on full success set
`last_checked[athlete_id]` to `datetime.now()`; any exception (network
failure in the fetch, or a failed post) is caught by the `except`, which
logs and leaves `last_checked` untouched.  Activities posted before a
failure stay posted. -/
def processUsers (now : Int) (resp : String → Int → Resp)
    (ok : String → Activity → Bool) :
    List (String × String) → BotState → BotState × List Event
  | [], st => (st, [])
  | (athlete_id, _tok) :: rest, st =>
    match get_recent_activities st athlete_id now (resp athlete_id) with
    | Except.error _ => processUsers now resp ok rest st
    | Except.ok acts =>
      let dl := deliverLoop (ok athlete_id) acts
      let st1 := if dl.2
        then { st with last_checked := setk st.last_checked athlete_id now }
        else st
      let r := processUsers now resp ok rest st1
      (r.1, dl.1.map (Event.delivered athlete_id) ++ r.2)

/-- One `check_activities` cycle: return early (no save) if there are no
athletes or the channel is missing; otherwise process every athlete in
dict order and call `save_data()` once at the very end. -/
def check_activities (st : BotState) (now : Int) (hasChannel : Bool)
    (resp : String → Int → Resp) (ok : String → Activity → Bool) :
    BotState × List Event :=
  if st.athlete_tokens.isEmpty then (st, [])
  else if !hasChannel then (st, [])
  else
    let r := processUsers now resp ok st.athlete_tokens st
    (r.1, r.2 ++ [Event.persisted])

/-- The athlete's watermark: `last_checked` for an id. -/
def watermark (st : BotState) (athlete_id : String) : Option Int :=
  lookupk st.last_checked athlete_id

/-- The environment of one scheduler cycle: its wall-clock time, whether
the Discord channel resolves, the remote's behaviour per athlete and
requested window, and the delivery outcomes per athlete and activity. -/
structure CycleInput where
  now : Int
  hasChannel : Bool
  resp : String → Int → Resp
  ok : String → Activity → Bool

/-- Run a sequence of scheduler cycles. -/
def runCycles : BotState → List CycleInput → BotState
  | st, [] => st
  | st, c :: cs => runCycles (check_activities st c.now c.hasChannel c.resp c.ok).1 cs

/-- The operations that mutate the bot's state: registration
(`set_token`), removal (`remove_athlete`), and a scheduler cycle. -/
inductive Op where
  | reg (athlete_id tok : String) (now : Int)
  | unreg (athlete_id : String)
  | cycle (now : Int) (hasChannel : Bool) (resp : String → Int → Resp)
      (ok : String → Activity → Bool)

/-- Apply one operation to the state. -/
def applyOp (st : BotState) : Op → BotState
  | Op.reg i t n => set_token st i t n
  | Op.unreg i => remove_athlete st i
  | Op.cycle n hc resp ok => (check_activities st n hc resp ok).1

/-- Apply a sequence of operations. -/
def runOps (st : BotState) (ops : List Op) : BotState :=
  ops.foldl applyOp st

/-- A map whose keys are distinct, as Python dicts guarantee. -/
def KeysOk {α : Type} (m : List (String × α)) : Prop :=
  (m.map Prod.fst).Nodup

/-- The store invariant: both dicts have dict-like (distinct) keys and
hold exactly the same set of athlete ids. -/
def StoreInv (st : BotState) : Prop :=
  KeysOk st.athlete_tokens ∧ KeysOk st.last_checked ∧
  ∀ k, hask st.last_checked k = hask st.athlete_tokens k

/-! ## Helper lemmas about the map operations and the cycle -/

theorem lookupk_setk {α : Type} (m : List (String × α)) (k j : String) (v : α) :
    lookupk (setk m k v) j = if k = j then some v else lookupk m j := by
  induction m with
  | nil => simp [setk, lookupk]
  | cons p rest ih =>
    by_cases hpk : p.1 = k
    · subst hpk
      simp only [setk, if_pos rfl, lookupk]
      by_cases hj : p.1 = j
      · simp [hj]
      · simp [hj]
    · simp only [setk, if_neg hpk, lookupk]
      by_cases hj : p.1 = j
      · subst hj
        have hkj : ¬ k = p.1 := fun h => hpk h.symm
        simp [hkj]
      · simp [hj, ih]

theorem lookupk_delk_ne {α : Type} (m : List (String × α)) (k j : String)
    (h : k ≠ j) : lookupk (delk m k) j = lookupk m j := by
  induction m with
  | nil => simp [delk, lookupk]
  | cons p rest ih =>
    by_cases hpk : p.1 = k
    · simp only [delk, if_pos hpk, lookupk]
      have hpj : ¬ p.1 = j := by rw [hpk]; exact h
      simp [hpj]
    · simp only [delk, if_neg hpk, lookupk]
      by_cases hpj : p.1 = j
      · simp [hpj]
      · simp [hpj, ih]

theorem deliverLoop_eq (ok : Activity → Bool) (acts : List Activity) :
    deliverLoop ok acts = (acts.takeWhile ok, acts.all ok) := by
  induction acts with
  | nil => simp [deliverLoop, List.takeWhile]
  | cons a rest ih =>
    by_cases h : ok a
    · simp [deliverLoop, h, ih, List.takeWhile, List.all_cons]
    · simp [deliverLoop, h, List.takeWhile, List.all_cons,
        Bool.eq_false_iff.mpr h]

theorem processUsers_tokens (now : Int) (resp : String → Int → Resp)
    (ok : String → Activity → Bool) (users : List (String × String)) (st : BotState) :
    (processUsers now resp ok users st).1.athlete_tokens = st.athlete_tokens := by
  induction users generalizing st with
  | nil => simp [processUsers]
  | cons u rest ih =>
    obtain ⟨uid, tok⟩ := u
    simp only [processUsers]
    cases hfetch : get_recent_activities st uid now (resp uid) with
    | error e => exact ih st
    | ok acts =>
      simp only []
      by_cases hdl : (deliverLoop (ok uid) acts).2
      · simp [hdl, ih]
      · simp [hdl, ih]

/-- Every `last_checked` write inside a cycle writes the cycle's `now`:
the watermark after the loop is either the old one or `now`. -/
theorem processUsers_watermark (now : Int) (resp : String → Int → Resp)
    (ok : String → Activity → Bool) (users : List (String × String)) (st : BotState)
    (athlete_id : String) :
    lookupk (processUsers now resp ok users st).1.last_checked athlete_id =
      lookupk st.last_checked athlete_id ∨
    lookupk (processUsers now resp ok users st).1.last_checked athlete_id = some now := by
  induction users generalizing st with
  | nil => left; simp [processUsers]
  | cons u rest ih =>
    obtain ⟨uid, tok⟩ := u
    simp only [processUsers]
    cases hfetch : get_recent_activities st uid now (resp uid) with
    | error e => exact ih st
    | ok acts =>
      simp only []
      by_cases hdl : (deliverLoop (ok uid) acts).2
      · simp only [hdl, if_pos]
        rcases ih { st with last_checked := setk st.last_checked uid now } with h | h
        · rw [h]
          simp only [lookupk_setk]
          by_cases hu : uid = athlete_id
          · right; simp [hu]
          · left; simp [hu]
        · right; exact h
      · simp only [hdl]
        simpa using ih st

/-- Once the watermark is `now`, the rest of the loop keeps it at `now`. -/
theorem processUsers_keeps_now (now : Int) (resp : String → Int → Resp)
    (ok : String → Activity → Bool) (users : List (String × String)) (st : BotState)
    (athlete_id : String)
    (h : lookupk st.last_checked athlete_id = some now) :
    lookupk (processUsers now resp ok users st).1.last_checked athlete_id = some now := by
  rcases processUsers_watermark now resp ok users st athlete_id with h' | h'
  · rw [h', h]
  · exact h'

/-- The events emitted by the per-athlete loop are all deliveries; the
single `save_data()` happens after the loop. -/
theorem processUsers_no_persist (now : Int) (resp : String → Int → Resp)
    (ok : String → Activity → Bool) (users : List (String × String)) (st : BotState) :
    Event.persisted ∉ (processUsers now resp ok users st).2 := by
  induction users generalizing st with
  | nil => simp [processUsers]
  | cons u rest ih =>
    obtain ⟨uid, tok⟩ := u
    simp only [processUsers]
    cases hfetch : get_recent_activities st uid now (resp uid) with
    | error e => exact ih st
    | ok acts =>
      simp only [List.mem_append, List.mem_map]
      rintro (⟨a, _, hcontra⟩ | hmem)
      · exact Event.noConfusion hcontra
      · exact ih _ hmem

theorem hask_setk {α : Type} (m : List (String × α)) (k j : String) (v : α) :
    hask (setk m k v) j = if k = j then true else hask m j := by
  unfold hask
  rw [lookupk_setk]
  by_cases h : k = j <;> simp [h]

theorem hask_iff_mem_keys {α : Type} (m : List (String × α)) (k : String) :
    hask m k = true ↔ k ∈ m.map Prod.fst := by
  induction m with
  | nil => simp [hask, lookupk]
  | cons p rest ih =>
    by_cases h : p.1 = k
    · simp [hask, lookupk, h]
    · simp only [hask, lookupk, if_neg h, List.map_cons, List.mem_cons]
      rw [← hask]
      rw [ih]
      constructor
      · exact fun hm => Or.inr hm
      · rintro (hm | hm)
        · exact absurd hm.symm h
        · exact hm

theorem mem_keys_setk {α : Type} (m : List (String × α)) (k j : String) (v : α) :
    j ∈ (setk m k v).map Prod.fst ↔ j = k ∨ j ∈ m.map Prod.fst := by
  rw [← hask_iff_mem_keys, ← hask_iff_mem_keys, hask_setk]
  by_cases h : k = j
  · simp [h]
  · have : ¬ j = k := fun hc => h hc.symm
    simp [h, this]

theorem keysOk_setk {α : Type} (m : List (String × α)) (k : String) (v : α)
    (h : KeysOk m) : KeysOk (setk m k v) := by
  induction m with
  | nil => simp [KeysOk, setk]
  | cons p rest ih =>
    unfold KeysOk at h ⊢
    simp only [List.map_cons, List.nodup_cons] at h
    by_cases hpk : p.1 = k
    · simp only [setk, if_pos hpk, List.map_cons, List.nodup_cons]
      exact ⟨by rw [← hpk]; exact h.1, h.2⟩
    · simp only [setk, if_neg hpk, List.map_cons, List.nodup_cons]
      refine ⟨?_, ih h.2⟩
      intro hmem
      rw [← hask_iff_mem_keys] at hmem
      rw [hask_setk] at hmem
      by_cases hk : k = p.1
      · exact hpk hk.symm
      · rw [if_neg hk, hask_iff_mem_keys] at hmem
        exact h.1 hmem

theorem mem_keys_delk {α : Type} (m : List (String × α)) (k j : String)
    (h : j ∈ (delk m k).map Prod.fst) : j ∈ m.map Prod.fst := by
  induction m with
  | nil => simp [delk] at h
  | cons p rest ih =>
    by_cases hpk : p.1 = k
    · simp only [delk, if_pos hpk] at h
      simp [h]
    · simp only [delk, if_neg hpk, List.map_cons, List.mem_cons] at h ⊢
      rcases h with h | h
      · exact Or.inl h
      · exact Or.inr (ih h)

theorem keysOk_delk {α : Type} (m : List (String × α)) (k : String)
    (h : KeysOk m) : KeysOk (delk m k) := by
  induction m with
  | nil => simp [KeysOk, delk]
  | cons p rest ih =>
    unfold KeysOk at h ⊢
    simp only [List.map_cons, List.nodup_cons] at h
    by_cases hpk : p.1 = k
    · simp only [delk, if_pos hpk]
      exact h.2
    · simp only [delk, if_neg hpk, List.map_cons, List.nodup_cons]
      exact ⟨fun hmem => h.1 (mem_keys_delk rest k p.1 hmem), ih h.2⟩

theorem lookupk_delk_self {α : Type} (m : List (String × α)) (k : String)
    (h : KeysOk m) : lookupk (delk m k) k = none := by
  induction m with
  | nil => simp [delk, lookupk]
  | cons p rest ih =>
    unfold KeysOk at h
    simp only [List.map_cons, List.nodup_cons] at h
    by_cases hpk : p.1 = k
    · simp only [delk, if_pos hpk]
      cases hl : lookupk rest k with
      | none => rfl
      | some v =>
        exfalso
        have : hask rest k = true := by simp [hask, hl]
        rw [hask_iff_mem_keys] at this
        rw [hpk] at h
        exact h.1 this
    · simp only [delk, if_neg hpk, lookupk, if_neg hpk]
      exact ih h.2

theorem mem_hask {α : Type} (m : List (String × α)) (k : String) (v : α)
    (h : (k, v) ∈ m) : hask m k = true := by
  rw [hask_iff_mem_keys]
  exact List.mem_map_of_mem Prod.fst h

/-- Inside a cycle, the per-athlete loop never adds or deletes a
`last_checked` entry, provided every processed id already has one (which
the store invariant guarantees, since ids are drawn from
`athlete_tokens`). -/
theorem processUsers_hask (now : Int) (resp : String → Int → Resp)
    (ok : String → Activity → Bool) (users : List (String × String)) (st : BotState)
    (husers : ∀ p ∈ users, hask st.last_checked p.1 = true) (k : String) :
    hask (processUsers now resp ok users st).1.last_checked k =
      hask st.last_checked k := by
  induction users generalizing st with
  | nil => simp [processUsers]
  | cons u rest ih =>
    obtain ⟨uid, tok⟩ := u
    simp only [processUsers]
    cases hfetch : get_recent_activities st uid now (resp uid) with
    | error e =>
      exact ih st (fun p hp => husers p (List.mem_cons_of_mem _ hp))
    | ok acts =>
      simp only []
      by_cases hdl : (deliverLoop (ok uid) acts).2
      · simp only [hdl, if_pos]
        have hstep : ∀ j, hask (setk st.last_checked uid now) j = hask st.last_checked j := by
          intro j
          rw [hask_setk]
          by_cases hj : uid = j
          · rw [if_pos hj, ← hj]
            exact (husers (uid, tok) (List.mem_cons_self _ _)).symm
          · rw [if_neg hj]
        have := ih { st with last_checked := setk st.last_checked uid now }
          (fun p hp => by
            rw [hstep p.1]
            exact husers p (List.mem_cons_of_mem _ hp))
        rw [this, hstep k]
      · simp only [hdl]
        exact ih st (fun p hp => husers p (List.mem_cons_of_mem _ hp))

/-- The loop keeps `last_checked`'s keys dict-like (it only overwrites or
appends-with-fresh-key via `setk`). -/
theorem processUsers_keysOk (now : Int) (resp : String → Int → Resp)
    (ok : String → Activity → Bool) (users : List (String × String)) (st : BotState)
    (h : KeysOk st.last_checked) :
    KeysOk (processUsers now resp ok users st).1.last_checked := by
  induction users generalizing st with
  | nil => simpa [processUsers] using h
  | cons u rest ih =>
    obtain ⟨uid, tok⟩ := u
    simp only [processUsers]
    cases hfetch : get_recent_activities st uid now (resp uid) with
    | error e => exact ih st h
    | ok acts =>
      simp only []
      by_cases hdl : (deliverLoop (ok uid) acts).2
      · simp only [hdl, if_pos]
        exact ih _ (keysOk_setk st.last_checked uid now h)
      · simp only [hdl]
        exact ih st h

/-- Every state mutation preserves the store invariant. -/
theorem storeInv_applyOp (st : BotState) (op : Op) (h : StoreInv st) :
    StoreInv (applyOp st op) := by
  obtain ⟨htok, hlc, hdom⟩ := h
  cases op with
  | reg i t n =>
    refine ⟨keysOk_setk _ _ _ htok, keysOk_setk _ _ _ hlc, fun k => ?_⟩
    simp only [applyOp, set_token] at *
    rw [hask_setk, hask_setk]
    by_cases hik : i = k
    · simp [hik]
    · simp [hik, hdom k]
  | unreg i =>
    simp only [applyOp, remove_athlete]
    by_cases hi : hask st.athlete_tokens i
    · simp only [hi, if_pos]
      refine ⟨keysOk_delk _ _ htok, keysOk_delk _ _ hlc, fun k => ?_⟩
      by_cases hik : i = k
      · subst hik
        unfold hask
        rw [lookupk_delk_self _ _ hlc, lookupk_delk_self _ _ htok]
        rfl
      · unfold hask
        rw [lookupk_delk_ne _ _ _ hik, lookupk_delk_ne _ _ _ hik]
        exact hdom k
    · simp only [hi]
      simp only [Bool.false_eq_true, if_false]
      exact ⟨htok, hlc, hdom⟩
  | cycle n hc resp ok =>
    simp only [applyOp, check_activities]
    by_cases hemp : st.athlete_tokens.isEmpty
    · simpa [hemp] using ⟨htok, hlc, hdom⟩
    · by_cases hch : hc
      · simp only [hemp, hch, Bool.not_true, Bool.false_eq_true, if_false]
        refine ⟨?_, ?_, ?_⟩
        · rw [processUsers_tokens]
          exact htok
        · exact processUsers_keysOk n resp ok st.athlete_tokens st hlc
        · intro k
          rw [processUsers_tokens]
          rw [processUsers_hask n resp ok st.athlete_tokens st
            (fun p hp => by rw [hdom p.1]; exact mem_hask _ _ p.2 hp) k]
          exact hdom k
      · simp only [hch] at *
        simpa [hemp] using ⟨htok, hlc, hdom⟩

/-- The store invariant holds in every state reachable from the initial
(empty) state by registrations, removals and cycles. -/
theorem storeInv_runOps (ops : List Op) (st : BotState) (h : StoreInv st) :
    StoreInv (runOps st ops) := by
  induction ops generalizing st with
  | nil => simpa [runOps] using h
  | cons op rest ih =>
    simp only [runOps, List.foldl_cons]
    exact ih (applyOp st op) (storeInv_applyOp st op h)

theorem storeInv_initState : StoreInv initState :=
  ⟨List.nodup_nil, List.nodup_nil, fun _ => rfl⟩

/-- A cycle leaves a watermark unchanged or sets it to the cycle time. -/
theorem cycle_watermark (st : BotState) (now : Int) (hc : Bool)
    (resp : String → Int → Resp) (ok : String → Activity → Bool) (athlete_id : String) :
    watermark (check_activities st now hc resp ok).1 athlete_id =
      watermark st athlete_id ∨
    watermark (check_activities st now hc resp ok).1 athlete_id = some now := by
  unfold check_activities
  by_cases hemp : st.athlete_tokens.isEmpty
  · left; simp [hemp]
  · by_cases hch : hc
    · simp only [hemp, hch, Bool.not_true, Bool.false_eq_true, if_false]
      exact processUsers_watermark now resp ok st.athlete_tokens st athlete_id
    · simp only [hch] at *
      left; simp [hemp]

theorem chain_le_of_le {a b : Int} {l : List Int} (hab : a ≤ b)
    (h : List.Chain (· ≤ ·) b l) : List.Chain (· ≤ ·) a l := by
  cases l with
  | nil => exact List.Chain.nil
  | cons x xs =>
    rcases (List.chain_cons).mp h with ⟨hbx, hxs⟩
    exact List.Chain.cons (le_trans hab hbx) hxs

/-- If an athlete appears in the processed list, their fetch succeeds
(whatever window is requested) and all their posts succeed, then after
the loop their watermark is the cycle time — regardless of how every
other athlete's fetch or delivery behaves. -/
theorem processUsers_success_mem (now : Int) (resp : String → Int → Resp)
    (dok : String → Activity → Bool) (athlete_id tok : String) (acts : List Activity)
    (hresp : ∀ w, resp athlete_id w = Resp.http 200 acts)
    (hdel : acts.all (dok athlete_id) = true) :
    ∀ (users : List (String × String)) (st : BotState),
      (athlete_id, tok) ∈ users →
      lookupk (processUsers now resp dok users st).1.last_checked athlete_id =
        some now := by
  intro users
  induction users with
  | nil => intro st h; simp at h
  | cons u rest ih =>
    intro st hmem
    obtain ⟨uid, t⟩ := u
    by_cases huid : uid = athlete_id
    · subst huid
      have hfetch : get_recent_activities st uid now (resp uid) = Except.ok acts := by
        simp [get_recent_activities, hresp]
      simp only [processUsers, hfetch]
      rw [deliverLoop_eq]
      simp only [hdel, if_pos]
      exact processUsers_keeps_now now resp dok rest
        { st with last_checked := setk st.last_checked uid now } uid
        (by rw [lookupk_setk]; simp)
    · have hrest : (athlete_id, tok) ∈ rest := by
        rcases List.mem_cons.mp hmem with h | h
        · exact absurd (congrArg Prod.fst h).symm huid
        · exact h
      simp only [processUsers]
      cases hfetch : get_recent_activities st uid now (resp uid) with
      | error e => exact ih st hrest
      | ok acts' =>
        simp only []
        by_cases hdl : (deliverLoop (dok uid) acts').2
        · simp only [hdl, if_pos]
          exact ih _ hrest
        · simp only [hdl]
          exact ih st hrest

/-- A member of the tokens dict means the dict is not empty. -/
theorem isEmpty_eq_false_of_mem {α : Type} {l : List α} {a : α} (h : a ∈ l) :
    l.isEmpty = false := by
  cases l with
  | nil => simp at h
  | cons x xs => rfl

/-- A cycle never adds or removes entries of either dict: `last_checked`
membership and the whole tokens dict are unchanged, for any state
satisfying the store invariant. -/
theorem cycle_preserves_stores (st : BotState) (now : Int) (hc : Bool)
    (resp : String → Int → Resp) (dok : String → Activity → Bool)
    (h : StoreInv st) (k : String) :
    hask (check_activities st now hc resp dok).1.last_checked k =
      hask st.last_checked k ∧
    (check_activities st now hc resp dok).1.athlete_tokens = st.athlete_tokens := by
  obtain ⟨htok, hlc, hdom⟩ := h
  unfold check_activities
  by_cases hemp : st.athlete_tokens.isEmpty
  · simp [hemp]
  · by_cases hch : hc
    · simp only [hemp, hch, Bool.not_true, Bool.false_eq_true, if_false]
      exact ⟨processUsers_hask now resp dok st.athlete_tokens st
          (fun p hp => by rw [hdom p.1]; exact mem_hask _ _ p.2 hp) k,
        processUsers_tokens now resp dok st.athlete_tokens st⟩
    · simp only [hch] at *
      simp [hemp]

/-! ## The claims -/

/-- C1: across any sequence of cycles whose wall-clock times are
non-decreasing (and not before the stored watermark), the persisted
watermark for a user never decreases: every update writes the cycle's
`datetime.now()`, which is at least the previous value. -/
theorem c1_watermark_monotone (st : BotState) (athlete_id : String) (w : Int)
    (cs : List CycleInput)
    (hw : watermark st athlete_id = some w)
    (hchain : List.Chain (· ≤ ·) w (cs.map CycleInput.now)) :
    ∃ w', watermark (runCycles st cs) athlete_id = some w' ∧ w ≤ w' := by
  induction cs generalizing st w with
  | nil => exact ⟨w, by simpa [runCycles] using hw, le_refl w⟩
  | cons c rest ih =>
    simp only [List.map_cons, List.chain_cons] at hchain
    obtain ⟨hwc, hrest⟩ := hchain
    simp only [runCycles]
    rcases cycle_watermark st c.now c.hasChannel c.resp c.ok athlete_id with h | h
    · exact ih _ w (by rw [h, hw]) (chain_le_of_le hwc hrest)
    · obtain ⟨w', hw', hle⟩ := ih _ c.now h hrest
      exact ⟨w', hw', le_trans hwc hle⟩

theorem c1_watermark_monotone_witness :
    ∃ w', watermark (runCycles ⟨[("u", "t")], [("u", 5)]⟩
        [⟨7, true, fun _ _ => Resp.http 200 [], fun _ _ => true⟩]) "u" = some w' ∧
      (5 : Int) ≤ w' :=
  c1_watermark_monotone ⟨[("u", "t")], [("u", 5)]⟩ "u" 5
    [⟨7, true, fun _ _ => Resp.http 200 [], fun _ _ => true⟩] (by decide)
    (List.Chain.cons (by norm_num) List.Chain.nil)

/-- C2 is false of the code: `check_activities` posts the fetched list
as-is, so a fetch returning start times `50, 40` is delivered `50, 40` —
the second notification has a strictly smaller `startTime` than the
first, not ascending order. -/
theorem c2_counterexample :
    (check_activities ⟨[("u", "t")], [("u", 10)]⟩ 20 true
        (fun _ _ => Resp.http 200 [⟨1, 50⟩, ⟨2, 40⟩]) (fun _ _ => true)).2 =
      [Event.delivered "u" ⟨1, 50⟩, Event.delivered "u" ⟨2, 40⟩, Event.persisted] ∧
    (Activity.mk 2 40).startTime < (Activity.mk 1 50).startTime := by
  decide

/-- C2 (amended): the scheduler performs no sort: within a cycle an
athlete's activities are posted in exactly the order the fetch returned
them (stopping at the first delivery failure), so an out-of-order fetch
yields out-of-order notifications. -/
theorem c2_delivery_in_fetch_order (lc : List (String × Int))
    (athlete_id tok : String) (now : Int) (acts : List Activity)
    (dok : Activity → Bool) :
    (check_activities ⟨[(athlete_id, tok)], lc⟩ now true
        (fun _ _ => Resp.http 200 acts) (fun _ => dok)).2 =
      (acts.takeWhile dok).map (Event.delivered athlete_id) ++ [Event.persisted] := by
  simp only [check_activities, List.isEmpty_cons, Bool.not_true, Bool.false_eq_true,
    if_false, processUsers]
  have hfetch : get_recent_activities ⟨[(athlete_id, tok)], lc⟩ athlete_id now
      (fun _ => Resp.http 200 acts) = Except.ok acts := by
    simp [get_recent_activities]
  simp only [hfetch, deliverLoop_eq]
  by_cases h : acts.all dok <;> simp [h, processUsers]

/-- C3 is false of the code: with watermark `100` and activities at
`200, 300` where posting the `300` one fails, the watermark is left at
`100` (the pre-cycle value), not advanced to `200`, the start time of
the last successfully delivered activity. -/
theorem c3_counterexample :
    watermark (check_activities ⟨[("u", "t")], [("u", 100)]⟩ 400 true
        (fun _ _ => Resp.http 200 [⟨1, 200⟩, ⟨2, 300⟩])
        (fun _ a => decide (a.startTime < 300))).1 "u" = some 100 ∧
    (100 : Int) ≠ 200 := by
  decide

/-- C3 (amended): when posting fails on the k-th of N activities, exactly
the activities before it were posted and no later one is attempted, but
the watermark is left at its pre-cycle value (the whole state is
unchanged), so all N activities are refetched — and the already-posted
ones re-posted — next cycle. -/
theorem c3_partial_delivery (lc : List (String × Int)) (athlete_id tok : String)
    (now : Int) (acts : List Activity) (dok : Activity → Bool)
    (hfail : acts.all dok = false) :
    check_activities ⟨[(athlete_id, tok)], lc⟩ now true
        (fun _ _ => Resp.http 200 acts) (fun _ => dok) =
      (⟨[(athlete_id, tok)], lc⟩,
       (acts.takeWhile dok).map (Event.delivered athlete_id) ++ [Event.persisted]) := by
  simp only [check_activities, List.isEmpty_cons, Bool.not_true, Bool.false_eq_true,
    if_false, processUsers]
  have hfetch : get_recent_activities ⟨[(athlete_id, tok)], lc⟩ athlete_id now
      (fun _ => Resp.http 200 acts) = Except.ok acts := by
    simp [get_recent_activities]
  simp only [hfetch, deliverLoop_eq]
  simp [hfail, processUsers]

theorem c3_partial_delivery_witness :
    check_activities ⟨[("u", "t")], [("u", 100)]⟩ 400 true
        (fun _ _ => Resp.http 200 [⟨1, 200⟩, ⟨2, 300⟩])
        (fun _ a => decide (a.startTime < 300)) =
      (⟨[("u", "t")], [("u", 100)]⟩,
       (([⟨1, 200⟩, ⟨2, 300⟩] : List Activity).takeWhile
           (fun a => decide (a.startTime < 300))).map (Event.delivered "u")
         ++ [Event.persisted]) :=
  c3_partial_delivery [("u", 100)] "u" "t" 400 [⟨1, 200⟩, ⟨2, 300⟩]
    (fun a => decide (a.startTime < 300)) (by decide)

/-- C4 is false of the code: a 401 response for `u2` is logged and turned
into an empty activity list, so the cycle counts as a success — the
watermark is advanced from `100` to the cycle time `200` (not left
unchanged), the credential stays in `athlete_tokens` (no suspension),
and the very next cycle still fetches and even posts for `u2`. -/
theorem c4_counterexample :
    check_activities ⟨[("u2", "t")], [("u2", 100)]⟩ 200 true
        (fun _ _ => Resp.http 401 []) (fun _ _ => true) =
      (⟨[("u2", "t")], [("u2", 200)]⟩, [Event.persisted]) ∧
    some (200 : Int) ≠ some 100 ∧
    (check_activities ⟨[("u2", "t")], [("u2", 200)]⟩ 300 true
        (fun _ _ => Resp.http 200 [⟨9, 250⟩]) (fun _ _ => true)).2 =
      [Event.delivered "u2" ⟨9, 250⟩, Event.persisted] := by
  decide

/-- C4 (amended): on an auth-rejected fetch (any non-200 status, 401/403
included) `get_recent_activities` logs and returns an empty list; the
cycle then treats the athlete as successfully processed: no notification
is sent, but the athlete is not suspended — the credential dict is
unchanged, so later cycles still fetch for them — and the watermark is
advanced to the cycle's wall-clock time. -/
theorem c4_auth_rejection_no_suspension (lc : List (String × Int))
    (athlete_id tok : String) (now : Int) (s : Nat) (body : List Activity)
    (dok : Activity → Bool) (hs : s ≠ 200) :
    check_activities ⟨[(athlete_id, tok)], lc⟩ now true
        (fun _ _ => Resp.http s body) (fun _ => dok) =
      (⟨[(athlete_id, tok)], setk lc athlete_id now⟩, [Event.persisted]) := by
  simp only [check_activities, List.isEmpty_cons, Bool.not_true, Bool.false_eq_true,
    if_false, processUsers]
  have hfetch : get_recent_activities ⟨[(athlete_id, tok)], lc⟩ athlete_id now
      (fun _ => Resp.http s body) = Except.ok [] := by
    simp [get_recent_activities, hs]
  simp [hfetch, deliverLoop, processUsers]

theorem c4_auth_rejection_no_suspension_witness :
    check_activities ⟨[("u2", "t")], [("u2", 100)]⟩ 200 true
        (fun _ _ => Resp.http 401 []) (fun _ => fun _ => true) =
      (⟨[("u2", "t")], setk [("u2", 100)] "u2" 200⟩, [Event.persisted]) :=
  c4_auth_rejection_no_suspension [("u2", 100)] "u2" "t" 200 401 []
    (fun _ => true) (by decide)

/-- C5 is false of the code: a transient 500 response is also turned into
an empty list, so the watermark is advanced from `150` to the cycle time
`250` — the next cycle's fetch does not reuse the same `since`. -/
theorem c5_counterexample :
    watermark (check_activities ⟨[("u3", "t")], [("u3", 150)]⟩ 250 true
        (fun _ _ => Resp.http 500 []) (fun _ _ => true)).1 "u3" = some 250 ∧
    some (250 : Int) ≠ some 150 := by
  decide

/-- C5 (amended): only a network-level failure (an exception out of the
HTTP client) leaves the state — watermark included — unchanged for the
athlete, giving a retry with the same `since`; any non-2xx HTTP response
(transient 5xx and rate-limit 429 alike) yields an empty list and the
watermark is advanced to the cycle's wall-clock time. -/
theorem c5_transient_watermark (lc : List (String × Int))
    (athlete_id tok : String) (now : Int) (s : Nat) (body : List Activity)
    (dok : Activity → Bool) (hs : s ≠ 200) :
    check_activities ⟨[(athlete_id, tok)], lc⟩ now true
        (fun _ _ => Resp.netErr) (fun _ => dok) =
      (⟨[(athlete_id, tok)], lc⟩, [Event.persisted]) ∧
    watermark (check_activities ⟨[(athlete_id, tok)], lc⟩ now true
        (fun _ _ => Resp.http s body) (fun _ => dok)).1 athlete_id = some now := by
  constructor
  · simp only [check_activities, List.isEmpty_cons, Bool.not_true, Bool.false_eq_true,
      if_false, processUsers]
    have hfetch : get_recent_activities ⟨[(athlete_id, tok)], lc⟩ athlete_id now
        (fun _ => Resp.netErr) = Except.error () := by
      simp [get_recent_activities]
    simp [hfetch, processUsers]
  · rw [c4_auth_rejection_no_suspension lc athlete_id tok now s body dok hs]
    simp [watermark, lookupk_setk]

/-- C6 is false of the code: `set_token` stores `datetime.now()` itself
as the initial watermark, so registering at `T0 = 1000000` stores
`1000000`, not `1000000 - 86400`. -/
theorem c6_counterexample :
    watermark (set_token initState "u1" "t" 1000000) "u1" = some 1000000 ∧
    (1000000 : Int) ≠ 1000000 - 86400 := by
  decide

/-- C6 (amended): registration stores the registration time `T0` itself
as the initial watermark; the 24-hour bootstrap window is applied only
inside `get_recent_activities`, for an athlete with no stored
`last_checked` entry, where the request window is `now - 86400`. -/
theorem c6_registration_watermark (st : BotState) (athlete_id tok : String)
    (now : Int) (h : lookupk st.last_checked athlete_id = none) :
    watermark (set_token st athlete_id tok now) athlete_id = some now ∧
    after_timestamp st athlete_id now = now - 86400 := by
  constructor
  · simp [watermark, set_token, lookupk_setk]
  · simp [after_timestamp, h]

theorem c6_registration_watermark_witness :
    watermark (set_token ⟨[], []⟩ "u1" "t" 1000000) "u1" = some 1000000 ∧
    after_timestamp ⟨[], []⟩ "u1" 1000000 = 1000000 - 86400 :=
  c6_registration_watermark ⟨[], []⟩ "u1" "t" 1000000 (by decide)

/-- C7: in every state reachable from the empty initial state by
registrations, removals and cycles, an id has a `last_checked` entry
exactly when it has an `athlete_tokens` entry (so every watermark id has
a credential); moreover a cycle run from such a state neither adds nor
deletes entries of either dict — registration and removal are the only
operations that do. -/
theorem c7_store_consistency (ops : List Op) (athlete_id : String) :
    hask (runOps initState ops).last_checked athlete_id =
      hask (runOps initState ops).athlete_tokens athlete_id ∧
    ∀ (now : Int) (hc : Bool) (resp : String → Int → Resp)
      (dok : String → Activity → Bool),
      hask (applyOp (runOps initState ops) (Op.cycle now hc resp dok)).last_checked
          athlete_id =
        hask (runOps initState ops).last_checked athlete_id ∧
      (applyOp (runOps initState ops) (Op.cycle now hc resp dok)).athlete_tokens =
        (runOps initState ops).athlete_tokens := by
  have hinv : StoreInv (runOps initState ops) :=
    storeInv_runOps ops initState storeInv_initState
  refine ⟨hinv.2.2 athlete_id, fun now hc resp dok => ?_⟩
  exact cycle_preserves_stores (runOps initState ops) now hc resp dok hinv athlete_id

/-- C8 is false of the code: with two athletes both processed
successfully, the trace shows both deliveries and then a single
`save_data()` at the very end — no persist happens between the first
athlete's processing and the second's. -/
theorem c8_counterexample :
    check_activities ⟨[("u1", "t1"), ("u2", "t2")], [("u1", 10), ("u2", 20)]⟩ 30 true
        (fun i _ => if i = "u1" then Resp.http 200 [⟨1, 25⟩] else Resp.http 200 [⟨2, 26⟩])
        (fun _ _ => true) =
      (⟨[("u1", "t1"), ("u2", "t2")], [("u1", 30), ("u2", 30)]⟩,
       [Event.delivered "u1" ⟨1, 25⟩, Event.delivered "u2" ⟨2, 26⟩, Event.persisted]) ∧
    Event.persisted ∉
      [Event.delivered "u1" (⟨1, 25⟩ : Activity), Event.delivered "u2" ⟨2, 26⟩] := by
  decide

/-- C8 (amended): updated watermarks are only kept in memory as the loop
moves from one athlete to the next; persistence happens once, in a
single batched `save_data()` after every athlete of the cycle has been
processed — the per-athlete loop itself never persists. -/
theorem c8_single_end_of_cycle_persist (st : BotState) (now : Int)
    (resp : String → Int → Resp) (dok : String → Activity → Bool)
    (h : st.athlete_tokens.isEmpty = false) :
    (check_activities st now true resp dok).2 =
      (processUsers now resp dok st.athlete_tokens st).2 ++ [Event.persisted] ∧
    Event.persisted ∉ (processUsers now resp dok st.athlete_tokens st).2 := by
  constructor
  · simp [check_activities, h]
  · exact processUsers_no_persist now resp dok st.athlete_tokens st

theorem c8_single_end_of_cycle_persist_witness :
    (check_activities ⟨[("u1", "t1")], []⟩ 30 true
        (fun _ _ => Resp.http 200 []) (fun _ _ => true)).2 =
      (processUsers 30 (fun _ _ => Resp.http 200 []) (fun _ _ => true)
          [("u1", "t1")] ⟨[("u1", "t1")], []⟩).2 ++ [Event.persisted] ∧
    Event.persisted ∉
      (processUsers 30 (fun _ _ => Resp.http 200 []) (fun _ _ => true)
          [("u1", "t1")] ⟨[("u1", "t1")], []⟩).2 :=
  c8_single_end_of_cycle_persist ⟨[("u1", "t1")], []⟩ 30
    (fun _ _ => Resp.http 200 []) (fun _ _ => true) (by decide)

/-- C9: a per-athlete failure is caught by the loop's `except` and never
propagates: any athlete whose own fetch succeeds and whose posts all
succeed ends the cycle with their watermark set to the cycle time, no
matter how every other athlete's fetch or delivery fails (exceptions
included) — and the cycle itself completes. -/
theorem c9_failure_isolation (st : BotState) (athlete_id tok : String) (now : Int)
    (resp : String → Int → Resp) (dok : String → Activity → Bool)
    (acts : List Activity)
    (hmem : (athlete_id, tok) ∈ st.athlete_tokens)
    (hresp : ∀ w, resp athlete_id w = Resp.http 200 acts)
    (hdel : acts.all (dok athlete_id) = true) :
    watermark (check_activities st now true resp dok).1 athlete_id = some now := by
  unfold check_activities
  rw [isEmpty_eq_false_of_mem hmem]
  simp only [Bool.not_true, Bool.false_eq_true, if_false]
  exact processUsers_success_mem now resp dok athlete_id tok acts hresp hdel
    st.athlete_tokens st hmem

theorem c9_failure_isolation_witness :
    watermark (check_activities ⟨[("bad", "tb"), ("good", "tg")], []⟩ 30 true
        (fun i _ => if i = "bad" then Resp.netErr else Resp.http 200 [⟨1, 5⟩])
        (fun _ _ => true)).1 "good" = some 30 :=
  c9_failure_isolation ⟨[("bad", "tb"), ("good", "tg")], []⟩ "good" "tg" 30
    (fun i _ => if i = "bad" then Resp.netErr else Resp.http 200 [⟨1, 5⟩])
    (fun _ _ => true) [⟨1, 5⟩] (by decide) (fun _ => rfl) (by decide)

/-- C10: when the persisted state file is absent, `load_data` catches
`FileNotFoundError` and returns with both dicts exactly as `__init__`
initialized them — empty, so the bot starts with zero monitored
athletes. -/
theorem c10_missing_file_fresh_start :
    load_data none initState = initState ∧
    (load_data none initState).athlete_tokens = [] ∧
    (load_data none initState).last_checked = [] :=
  ⟨rfl, rfl, rfl⟩

theorem c5_transient_watermark_witness :
    check_activities ⟨[("u3", "t")], [("u3", 150)]⟩ 250 true
        (fun _ _ => Resp.netErr) (fun _ => fun _ => true) =
      (⟨[("u3", "t")], [("u3", 150)]⟩, [Event.persisted]) ∧
    watermark (check_activities ⟨[("u3", "t")], [("u3", 150)]⟩ 250 true
        (fun _ _ => Resp.http 429 []) (fun _ => fun _ => true)).1 "u3" = some 250 :=
  c5_transient_watermark [("u3", 150)] "u3" "t" 250 429 [] (fun _ => true) (by decide)
